import Mathlib

/-!
# Verification of the Buffon needle round ledger (src/buffonpi.py)

Shallow embedding of the `RoundInfo` dataclass and the
`BuffonNeedleSimulation` class.  Python integers are modelled by `ℤ`;
the Python `float` values produced by the ledger are exact quotients of
integers or the `float('inf')` sentinel, modelled by `Est` (a rational
value or the infinity sentinel).  The sqlite `rounds` table is modelled
by the list of its rows in insertion order; a `SELECT ... ORDER BY
round_number` is a sort of that list; the `INTEGER PRIMARY KEY` column
makes an `INSERT` with a duplicate `round_number` fail
(`sqlite3.IntegrityError`), modelled by `Except DBError`.
-/

/-- A Python float value produced by the ledger: either an exact quotient
of integers or the `float('inf')` sentinel. -/
inductive Est where
  | val : ℚ → Est
  | inf : Est
deriving DecidableEq, Repr

/-- The `RoundInfo` dataclass (src/buffonpi.py lines 10–15). -/
structure RoundInfo where
  round_number : ℤ
  intersections : ℤ
  total_needles : ℤ
  cumulative_pi : Est
deriving DecidableEq, Repr

/-- The `RoundInfo.round_pi` property (lines 17–20):
`total_needles / intersections if intersections > 0 else float('inf')`. -/
def RoundInfo.round_pi (r : RoundInfo) : Est :=
  if 0 < r.intersections then .val ((r.total_needles : ℚ) / (r.intersections : ℚ))
  else .inf

/-- The failure the storage layer can surface: sqlite raises
`IntegrityError` when the `round_number` primary key already exists. -/
inductive DBError where
  | constraintViolation : DBError
deriving DecidableEq, Repr

/-- The sqlite `rounds` table: its rows in insertion order. -/
abbrev DB := List RoundInfo

/-- `INSERT INTO rounds ... VALUES (?, ?, ?, ?)` (lines 61–65): appends
the row, failing when its `round_number` primary key already exists. -/
def dbInsert (db : DB) (r : RoundInfo) : Except DBError DB :=
  if db.any (fun x => x.round_number == r.round_number) then .error .constraintViolation
  else .ok (db ++ [r])

/-- The order `ORDER BY round_number` sorts by. -/
def leRN (a b : RoundInfo) : Prop := a.round_number ≤ b.round_number

instance : DecidableRel leRN := fun a b =>
  inferInstanceAs (Decidable (a.round_number ≤ b.round_number))

/-- `load_rounds` (lines 44–55): `SELECT round_number, intersections,
total_needles, cumulative_pi FROM rounds ORDER BY round_number`. -/
def load_rounds (db : DB) : List RoundInfo :=
  List.insertionSort leRN db

/-- The `BuffonNeedleSimulation` object state: the backing sqlite table
`db` and the in-memory `rounds` list. -/
structure BuffonNeedleSimulation where
  db : DB
  rounds : List RoundInfo
deriving DecidableEq, Repr

/-- `__init__` (lines 23–26) over a path whose database already holds
`db` (`init_database` is `CREATE TABLE IF NOT EXISTS`, keeping existing
rows); then `self.rounds = self.load_rounds()`. -/
def mkSim (db : DB) : BuffonNeedleSimulation := ⟨db, load_rounds db⟩

/-- `__init__` over a fresh path: the table starts empty. -/
def emptySim : BuffonNeedleSimulation := mkSim []

/-- The body of `calculate_cumulative_pi` (lines 39–42) as a function of
the `self.rounds` list it reads. -/
def calcCumulativePi (rounds : List RoundInfo)
    (new_intersections new_total_needles : ℤ) : Est :=
  let total_intersections := (rounds.map (·.intersections)).sum + new_intersections
  let total_needles := (rounds.map (·.total_needles)).sum + new_total_needles
  if 0 < total_intersections then
    .val ((total_needles : ℚ) / (total_intersections : ℚ))
  else .inf

/-- `calculate_cumulative_pi` (lines 39–42): reads only `self.rounds`. -/
def BuffonNeedleSimulation.calculate_cumulative_pi (sim : BuffonNeedleSimulation)
    (new_intersections new_total_needles : ℤ) : Est :=
  calcCumulativePi sim.rounds new_intersections new_total_needles

/-- `add_round` (lines 57–67): computes the cumulative estimate from the
pre-state, assigns `round_number = len(self.rounds) + 1`, inserts the
row, then reloads `self.rounds` from the store. -/
def BuffonNeedleSimulation.add_round (sim : BuffonNeedleSimulation)
    (intersections total_needles : ℤ) : Except DBError BuffonNeedleSimulation :=
  let cumulative_pi := sim.calculate_cumulative_pi intersections total_needles
  let next_round : ℤ := (sim.rounds.length : ℤ) + 1
  match dbInsert sim.db ⟨next_round, intersections, total_needles, cumulative_pi⟩ with
  | .error e => .error e
  | .ok db2 => .ok ⟨db2, load_rounds db2⟩

/-- `get_rounds_for_display` (lines 69–71): `list(reversed(self.rounds))`. -/
def BuffonNeedleSimulation.get_rounds_for_display
    (sim : BuffonNeedleSimulation) : List RoundInfo :=
  sim.rounds.reverse

/-- `get_rounds_for_display` viewed as a method call on the object: its
body only reads `self.rounds` and assigns nothing, so the post-state is
the pre-state. -/
def BuffonNeedleSimulation.displayCall (sim : BuffonNeedleSimulation) :
    List RoundInfo × BuffonNeedleSimulation :=
  (sim.get_rounds_for_display, sim)

/-- `clear_data` (lines 73–77): removes the database file, re-creates the
empty table and sets `self.rounds = []`. -/
def BuffonNeedleSimulation.clear_data
    (_sim : BuffonNeedleSimulation) : BuffonNeedleSimulation :=
  ⟨[], []⟩

/-- Modelled from the spec: `headAndTail(n)` (§4.2) has no implementation
in src/buffonpi.py; per the spec it "returns the first `n` rounds and, if
total count exceeds `n`, the last `n` rounds; if total count ≤ `n`, the
tail portion is empty". -/
def BuffonNeedleSimulation.headAndTail (sim : BuffonNeedleSimulation) (n : ℕ) :
    List RoundInfo × List RoundInfo :=
  if sim.rounds.length ≤ n then (sim.rounds.take n, [])
  else (sim.rounds.take n, sim.rounds.drop (sim.rounds.length - n))

/-- Run a sequence of `add_round` calls, stopping at the first error. -/
def runAdds (sim : BuffonNeedleSimulation) :
    List (ℤ × ℤ) → Except DBError BuffonNeedleSimulation
  | [] => .ok sim
  | (i, t) :: rest =>
    match sim.add_round i t with
    | .error e => .error e
    | .ok s => runAdds s rest

/-- Pure reference model of the rounds list grown by successive
`add_round` calls. -/
def goAdds (acc : List RoundInfo) : List (ℤ × ℤ) → List RoundInfo
  | [] => acc
  | (i, t) :: rest =>
      goAdds (acc ++ [⟨(acc.length : ℤ) + 1, i, t, calcCumulativePi acc i t⟩]) rest

/-- A rounds list is canonically numbered when its `k`-th entry carries
`round_number = k + 1`. -/
def canonical (l : List RoundInfo) : Prop :=
  ∀ k (hk : k < l.length), (l[k]).round_number = (k : ℤ) + 1

instance (l : List RoundInfo) : Decidable (canonical l) :=
  inferInstanceAs
    (Decidable (∀ k (hk : k < l.length), (l[k]).round_number = (k : ℤ) + 1))

example : emptySim.get_rounds_for_display = [] := by decide
example : calcCumulativePi [] 5 20 = .val 4 := by norm_num [calcCumulativePi]
example : calcCumulativePi [] 0 20 = .inf := by decide

/-! ## Basic lemmas about canonical rounds lists -/

lemma canonical_nil : canonical [] := by
  intro k hk
  simp at hk

lemma canonical_mem_le {l : List RoundInfo} (h : canonical l) :
    ∀ a ∈ l, a.round_number ≤ (l.length : ℤ) := by
  intro a ha
  obtain ⟨k, hk, rfl⟩ := List.mem_iff_getElem.1 ha
  rw [h k hk]
  omega

lemma canonical_sorted {l : List RoundInfo} (h : canonical l) : List.Sorted leRN l := by
  show List.Pairwise leRN l
  rw [List.pairwise_iff_getElem]
  intro i j hi hj hij
  show _ ≤ _
  rw [h i hi, h j hj]
  omega

lemma dbInsert_fresh {l : List RoundInfo} (h : canonical l) (r : RoundInfo)
    (hr : r.round_number = (l.length : ℤ) + 1) :
    dbInsert l r = .ok (l ++ [r]) := by
  have hany : l.any (fun x => x.round_number == r.round_number) = false := by
    rw [List.any_eq_false]
    intro x hx
    have hle := canonical_mem_le h x hx
    simp only [beq_iff_eq]
    omega
  simp [dbInsert, hany]

lemma canonical_append {l : List RoundInfo} (h : canonical l) (r : RoundInfo)
    (hr : r.round_number = (l.length : ℤ) + 1) :
    canonical (l ++ [r]) := by
  intro k hk
  simp only [List.length_append, List.length_singleton] at hk
  rcases Nat.lt_or_ge k l.length with hk2 | hk2
  · rw [List.getElem_append_left hk2]
    exact h k hk2
  · have hkl : k = l.length := by omega
    subst hkl
    simp [hr]

lemma sorted_append_last {l : List RoundInfo} (h : canonical l) (r : RoundInfo)
    (hr : r.round_number = (l.length : ℤ) + 1) :
    List.Sorted leRN (l ++ [r]) := by
  show List.Pairwise leRN (l ++ [r])
  rw [List.pairwise_append]
  refine ⟨canonical_sorted h, List.pairwise_singleton _ _, ?_⟩
  intro a ha b hb
  rw [List.mem_singleton] at hb
  have hle := canonical_mem_le h a ha
  show a.round_number ≤ b.round_number
  rw [hb, hr]
  omega

lemma load_rounds_sorted {l : List RoundInfo} (h : List.Sorted leRN l) :
    load_rounds l = l :=
  h.insertionSort_eq

/-! ## Characterisation of `add_round` runs -/

lemma add_round_canonical {acc : List RoundInfo} (h : canonical acc) (i t : ℤ) :
    (BuffonNeedleSimulation.mk acc acc).add_round i t =
      .ok ⟨acc ++ [⟨(acc.length : ℤ) + 1, i, t, calcCumulativePi acc i t⟩],
           acc ++ [⟨(acc.length : ℤ) + 1, i, t, calcCumulativePi acc i t⟩]⟩ := by
  have h1 : dbInsert acc ⟨(acc.length : ℤ) + 1, i, t, calcCumulativePi acc i t⟩
      = .ok (acc ++ [⟨(acc.length : ℤ) + 1, i, t, calcCumulativePi acc i t⟩]) :=
    dbInsert_fresh h _ rfl
  have h2 := load_rounds_sorted (sorted_append_last h
    (⟨(acc.length : ℤ) + 1, i, t, calcCumulativePi acc i t⟩) rfl)
  simp only [BuffonNeedleSimulation.add_round,
    BuffonNeedleSimulation.calculate_cumulative_pi, h1, h2]

lemma runAdds_ok (inputs : List (ℤ × ℤ)) :
    ∀ acc : List RoundInfo, canonical acc →
      runAdds ⟨acc, acc⟩ inputs = .ok ⟨goAdds acc inputs, goAdds acc inputs⟩ := by
  induction inputs with
  | nil => intro acc _; rfl
  | cons p rest ih =>
    intro acc h
    obtain ⟨i, t⟩ := p
    simp only [runAdds, add_round_canonical h i t, goAdds]
    exact ih _ (canonical_append h _ rfl)

/-! ## Structural lemmas about `goAdds` -/

lemma goAdds_append (xs ys : List (ℤ × ℤ)) :
    ∀ acc, goAdds acc (xs ++ ys) = goAdds (goAdds acc xs) ys := by
  induction xs with
  | nil => intro acc; rfl
  | cons p rest ih =>
    intro acc
    obtain ⟨i, t⟩ := p
    simp only [List.cons_append, goAdds]
    exact ih _

lemma goAdds_extends (xs : List (ℤ × ℤ)) :
    ∀ acc, ∃ tl, goAdds acc xs = acc ++ tl := by
  induction xs with
  | nil => exact fun acc => ⟨[], by simp [goAdds]⟩
  | cons p rest ih =>
    intro acc
    obtain ⟨i, t⟩ := p
    obtain ⟨tl, htl⟩ := ih (acc ++ [⟨(acc.length : ℤ) + 1, i, t, calcCumulativePi acc i t⟩])
    refine ⟨⟨(acc.length : ℤ) + 1, i, t, calcCumulativePi acc i t⟩ :: tl, ?_⟩
    rw [goAdds, htl]
    simp

lemma goAdds_length (xs : List (ℤ × ℤ)) :
    ∀ acc, (goAdds acc xs).length = acc.length + xs.length := by
  induction xs with
  | nil => intro acc; simp [goAdds]
  | cons p rest ih =>
    intro acc
    obtain ⟨i, t⟩ := p
    rw [goAdds, ih]
    simp
    omega

lemma goAdds_canonical (xs : List (ℤ × ℤ)) :
    ∀ acc, canonical acc → canonical (goAdds acc xs) := by
  induction xs with
  | nil => exact fun _ h => h
  | cons p rest ih =>
    intro acc h
    obtain ⟨i, t⟩ := p
    exact ih _ (canonical_append h _ rfl)

lemma goAdds_map_inter (xs : List (ℤ × ℤ)) :
    ∀ acc, (goAdds acc xs).map (·.intersections)
      = acc.map (·.intersections) ++ xs.map (·.1) := by
  induction xs with
  | nil => intro acc; simp [goAdds]
  | cons p rest ih =>
    intro acc
    obtain ⟨i, t⟩ := p
    rw [goAdds, ih]
    simp

lemma goAdds_map_needles (xs : List (ℤ × ℤ)) :
    ∀ acc, (goAdds acc xs).map (·.total_needles)
      = acc.map (·.total_needles) ++ xs.map (·.2) := by
  induction xs with
  | nil => intro acc; simp [goAdds]
  | cons p rest ih =>
    intro acc
    obtain ⟨i, t⟩ := p
    rw [goAdds, ih]
    simp

lemma goAdds_take (xs : List (ℤ × ℤ)) (k : ℕ) (hk : k ≤ xs.length) :
    (goAdds [] xs).take k = goAdds [] (xs.take k) := by
  obtain ⟨tl, htl⟩ := goAdds_extends (xs.drop k) (goAdds [] (xs.take k))
  have hx : goAdds [] xs = goAdds [] (xs.take k) ++ tl := by
    conv_lhs => rw [← List.take_append_drop k xs]
    rw [goAdds_append, htl]
  have hlen : (goAdds [] (xs.take k)).length = k := by
    rw [goAdds_length]
    simp [Nat.min_eq_left hk]
  rw [hx, List.take_left' hlen]

lemma goAdds_getElem (xs : List (ℤ × ℤ)) (k : ℕ) (hk : k < xs.length)
    (hk2 : k < (goAdds [] xs).length) :
    (goAdds [] xs)[k] =
      ⟨(k : ℤ) + 1, (xs[k]).1, (xs[k]).2,
        calcCumulativePi (goAdds [] (xs.take k)) (xs[k]).1 (xs[k]).2⟩ := by
  have hpre : (goAdds [] xs).take (k + 1) = goAdds [] (xs.take (k + 1)) :=
    goAdds_take xs (k + 1) (by omega)
  have hsplit : xs.take (k + 1) = xs.take k ++ [xs[k]] := by
    rw [List.take_succ, List.getElem?_eq_getElem hk]
    rfl
  have hlen : (goAdds [] (xs.take k)).length = k := by
    rw [goAdds_length]
    simp [Nat.min_eq_left (Nat.le_of_lt hk)]
  have hstep : goAdds [] (xs.take (k + 1)) =
      goAdds [] (xs.take k) ++
        [⟨((goAdds [] (xs.take k)).length : ℤ) + 1, (xs[k]).1, (xs[k]).2,
          calcCumulativePi (goAdds [] (xs.take k)) (xs[k]).1 (xs[k]).2⟩] := by
    rw [hsplit, goAdds_append]
    rfl
  have hx2 : goAdds [] xs =
      goAdds [] (xs.take k) ++
        (⟨((goAdds [] (xs.take k)).length : ℤ) + 1, (xs[k]).1, (xs[k]).2,
          calcCumulativePi (goAdds [] (xs.take k)) (xs[k]).1 (xs[k]).2⟩ ::
          (goAdds [] xs).drop (k + 1)) := by
    conv_lhs => rw [← List.take_append_drop (k + 1) (goAdds [] xs)]
    rw [hpre, hstep]
    simp
  rw [List.getElem_of_eq hx2 hk2,
    List.getElem_append_right (le_of_eq hlen)]
  simp [hlen]

deriving instance DecidableEq for Except

lemma runAdds_empty (inputs : List (ℤ × ℤ)) :
    runAdds emptySim inputs = .ok ⟨goAdds [] inputs, goAdds [] inputs⟩ := by
  have he : emptySim = ⟨[], []⟩ := rfl
  rw [he]
  exact runAdds_ok inputs [] canonical_nil

/-! ## Claim theorems -/

/-- C2: for every ledger state and candidate inputs,
`calculate_cumulative_pi` returns `totalTrials / totalIntersections` when
`totalIntersections > 0` and the positive-infinity sentinel when
`totalIntersections = 0`; it is a total function (it cannot raise on a
zero denominator) and, being a pure function of the state, modifies
nothing. -/
theorem buffon_C2_estimate (sim : BuffonNeedleSimulation) (i t : ℤ) :
    (0 < (sim.rounds.map (·.intersections)).sum + i →
      sim.calculate_cumulative_pi i t =
        Est.val ((((sim.rounds.map (·.total_needles)).sum + t : ℤ) : ℚ) /
                 (((sim.rounds.map (·.intersections)).sum + i : ℤ) : ℚ))) ∧
    ((sim.rounds.map (·.intersections)).sum + i = 0 →
      sim.calculate_cumulative_pi i t = Est.inf) := by
  constructor
  · intro hpos
    simp only [BuffonNeedleSimulation.calculate_cumulative_pi, calcCumulativePi]
    rw [if_pos hpos]
  · intro hzero
    simp only [BuffonNeedleSimulation.calculate_cumulative_pi, calcCumulativePi]
    rw [if_neg (by omega)]

/-- Witness for C2 at concrete inputs: on the empty ledger,
`calculate_cumulative_pi 5 20` takes the quotient branch and
`calculate_cumulative_pi 0 20` takes the sentinel branch. -/
theorem buffon_C2_witness :
    emptySim.calculate_cumulative_pi 5 20 =
      Est.val ((((emptySim.rounds.map (·.total_needles)).sum + 20 : ℤ) : ℚ) /
               (((emptySim.rounds.map (·.intersections)).sum + 5 : ℤ) : ℚ)) ∧
    emptySim.calculate_cumulative_pi 0 20 = Est.inf :=
  ⟨(buffon_C2_estimate emptySim 5 20).1 (by decide),
   (buffon_C2_estimate emptySim 0 20).2 (by decide)⟩

/-- C3: after `N` successful `add_round` calls from the empty store the
stored `round_number`s are exactly `1, 2, ..., N` in insertion order. -/
theorem buffon_C3_numbering (inputs : List (ℤ × ℤ)) :
    ∃ s, runAdds emptySim inputs = .ok s ∧
      s.rounds.map (·.round_number) =
        (List.range inputs.length).map (fun j : ℕ => (j : ℤ) + 1) := by
  refine ⟨_, runAdds_empty inputs, ?_⟩
  have hc : canonical (goAdds [] inputs) := goAdds_canonical inputs [] canonical_nil
  have hlen : (goAdds [] inputs).length = inputs.length := by
    simpa using goAdds_length inputs []
  apply List.ext_getElem
  · rw [List.length_map, List.length_map, List.length_range, hlen]
  · intro k h1 h2
    have hk : k < (goAdds [] inputs).length := by
      rw [List.length_map] at h1
      exact h1
    rw [List.getElem_map, List.getElem_map, List.getElem_range]
    exact hc k hk

/-- C4 counterexample: `add_round` does not validate its inputs.  Called
with `intersections = 0` on the empty ledger it does not fail — it
appends round 1 with the sentinel estimate and mutates both the store
and the in-memory view. -/
theorem buffon_C4_counterexample :
    emptySim.add_round 0 5 =
      .ok ⟨[⟨1, 0, 5, Est.inf⟩], [⟨1, 0, 5, Est.inf⟩]⟩ ∧
    emptySim.add_round 0 5 ≠ .error DBError.constraintViolation := by decide

/-- C4 (amended): the ledger performs no input validation — every
`add_round` call from the empty store succeeds and appends a round,
non-positive `intersections`/`trials` included; rejection of non-positive
inputs exists only upstream in the UI layer. -/
theorem buffon_C4_no_validation (inputs : List (ℤ × ℤ)) :
    ∃ s, runAdds emptySim inputs = .ok s ∧ s.rounds.length = inputs.length := by
  refine ⟨_, runAdds_empty inputs, ?_⟩
  simpa using goAdds_length inputs []

/-- C10: `get_rounds_for_display` as a method call returns the reversed
in-memory sequence, leaves the object state (store and rounds view)
unchanged, and two consecutive calls with no intervening mutation return
equal sequences. -/
theorem buffon_C10_display_pure (sim : BuffonNeedleSimulation) :
    sim.displayCall.2 = sim ∧
    sim.displayCall.1 = sim.rounds.reverse ∧
    (sim.displayCall.2.displayCall).1 = sim.displayCall.1 :=
  ⟨rfl, rfl, rfl⟩

/-- C1: for every finite sequence of successful `add_round` calls
starting from the empty store, the `cumulative_pi` stored with round `k`
equals the sum of `total_needles` over rounds `1..k` divided by the sum
of `intersections` over rounds `1..k` (whenever that denominator is
positive, which covers all validated rounds), and equals the
positive-infinity sentinel when that denominator is 0. -/
theorem buffon_C1_aggregation (inputs : List (ℤ × ℤ)) :
    ∃ s, runAdds emptySim inputs = .ok s ∧
      s.rounds.length = inputs.length ∧
      ∀ k (hk : k < s.rounds.length),
        (0 < ((inputs.take (k + 1)).map (·.1)).sum →
          (s.rounds[k]).cumulative_pi =
            Est.val (((((inputs.take (k + 1)).map (·.2)).sum : ℤ) : ℚ) /
                     ((((inputs.take (k + 1)).map (·.1)).sum : ℤ) : ℚ))) ∧
        (((inputs.take (k + 1)).map (·.1)).sum = 0 →
          (s.rounds[k]).cumulative_pi = Est.inf) := by
  refine ⟨_, runAdds_empty inputs, ?_, ?_⟩
  · simpa using goAdds_length inputs []
  intro k hk
  have hglen : (goAdds [] inputs).length = inputs.length := by
    simpa using goAdds_length inputs []
  have hk0 : k < (goAdds [] inputs).length := hk
  have hk2 : k < inputs.length := hglen ▸ hk0
  have hget := goAdds_getElem inputs k hk2 hk0
  have hI : ((goAdds [] (inputs.take k)).map (·.intersections)).sum
      = ((inputs.take k).map (·.1)).sum := by
    rw [goAdds_map_inter]
    simp
  have hT : ((goAdds [] (inputs.take k)).map (·.total_needles)).sum
      = ((inputs.take k).map (·.2)).sum := by
    rw [goAdds_map_needles]
    simp
  have hsplit : inputs.take (k + 1) = inputs.take k ++ [inputs[k]] := by
    rw [List.take_succ, List.getElem?_eq_getElem hk2]
    rfl
  have hsplitI : ((inputs.take (k + 1)).map (·.1)).sum
      = ((inputs.take k).map (·.1)).sum + (inputs[k]).1 := by
    rw [hsplit]
    simp only [List.map_append, List.sum_append, List.map_cons, List.map_nil,
      List.sum_cons, List.sum_nil, add_zero]
  have hsplitT : ((inputs.take (k + 1)).map (·.2)).sum
      = ((inputs.take k).map (·.2)).sum + (inputs[k]).2 := by
    rw [hsplit]
    simp only [List.map_append, List.sum_append, List.map_cons, List.map_nil,
      List.sum_cons, List.sum_nil, add_zero]
  constructor
  · intro hpos2
    show ((goAdds [] inputs)[k]).cumulative_pi = _
    rw [hget]
    simp only [calcCumulativePi, hI, hT, ← hsplitI, ← hsplitT]
    rw [if_pos hpos2]
  · intro h0
    show ((goAdds [] inputs)[k]).cumulative_pi = _
    rw [hget]
    simp only [calcCumulativePi, hI, hT, ← hsplitI, ← hsplitT]
    rw [if_neg (by omega)]

/-- The concrete run of the two rounds in the spec's §8 scenario. -/
def c1Inputs : List (ℤ × ℤ) := [(5, 20), (10, 40)]

/-- Witness for C1, exercising both branches: the single-round run
`[(0, 5)]` (a successful call, since the ledger validates nothing) has
intersection total 0 and stores the sentinel; the first round of the
spec's §8 run `[(5, 20), (10, 40)]` has a positive total and stores the
quotient. -/
theorem buffon_C1_witness :
    (∃ s, runAdds emptySim [((0 : ℤ), (5 : ℤ))] = .ok s ∧
      ∃ (hk : 0 < s.rounds.length), (s.rounds[0]).cumulative_pi = Est.inf) ∧
    (∃ s, runAdds emptySim c1Inputs = .ok s ∧
      ∃ (hk : 0 < s.rounds.length),
        (s.rounds[0]).cumulative_pi =
          Est.val (((((c1Inputs.take 1).map (·.2)).sum : ℤ) : ℚ) /
                   ((((c1Inputs.take 1).map (·.1)).sum : ℤ) : ℚ))) := by
  constructor
  · obtain ⟨s, h1, h2, h3⟩ := buffon_C1_aggregation [((0 : ℤ), (5 : ℤ))]
    have hk : 0 < s.rounds.length := by
      rw [h2]
      decide
    exact ⟨s, h1, hk, (h3 0 hk).2 (by decide)⟩
  · obtain ⟨s, h1, h2, h3⟩ := buffon_C1_aggregation c1Inputs
    have hk : 0 < s.rounds.length := by
      rw [h2]
      decide
    exact ⟨s, h1, hk, (h3 0 hk).1 (by decide)⟩

/-- C5: history is frozen — after the rounds of `inputs` are written,
`m` further `add_round` calls leave every earlier stored record (its
`cumulative_pi` included) unchanged: the longer run's rounds list starts
with exactly the shorter run's rounds list. -/
theorem buffon_C5_frozen (inputs more : List (ℤ × ℤ)) :
    ∃ s₁ s₂, runAdds emptySim inputs = .ok s₁ ∧
      runAdds emptySim (inputs ++ more) = .ok s₂ ∧
      s₂.rounds.take s₁.rounds.length = s₁.rounds := by
  refine ⟨_, _, runAdds_empty inputs, runAdds_empty (inputs ++ more), ?_⟩
  show (goAdds [] (inputs ++ more)).take (goAdds [] inputs).length = goAdds [] inputs
  obtain ⟨tl, htl⟩ := goAdds_extends more (goAdds [] inputs)
  rw [goAdds_append, htl, List.take_left]

/-- C6: after `clear_data` the in-memory view is empty, a fresh scan of
the store is empty, and the next `add_round` (with any inputs) succeeds
and assigns `round_number = 1`. -/
theorem buffon_C6_clear (sim : BuffonNeedleSimulation) (i t : ℤ) :
    sim.clear_data.rounds = [] ∧
    load_rounds sim.clear_data.db = [] ∧
    ∃ s, sim.clear_data.add_round i t = .ok s ∧
      s.rounds.map (·.round_number) = [1] := by
  refine ⟨rfl, rfl, ?_⟩
  have h := add_round_canonical canonical_nil i t
  refine ⟨_, h, ?_⟩
  simp

/-- C7: the in-memory `rounds` view always equals the ascending-by-
`round_number` contents of the backing store: at construction over any
existing store, after every successful `add_round`, and after
`clear_data`; consequently a ledger rebuilt over the store of a
consistent ledger starts with exactly the rounds that ledger held, so
the persisted history survives a restart. -/
theorem buffon_C7_store_sync :
    (∀ db, (mkSim db).rounds = load_rounds (mkSim db).db) ∧
    (∀ (sim : BuffonNeedleSimulation) (i t : ℤ) s,
      sim.add_round i t = .ok s → s.rounds = load_rounds s.db) ∧
    (∀ sim : BuffonNeedleSimulation,
      sim.clear_data.rounds = load_rounds sim.clear_data.db) ∧
    (∀ sim : BuffonNeedleSimulation,
      sim.rounds = load_rounds sim.db → (mkSim sim.db).rounds = sim.rounds) := by
  refine ⟨fun db => rfl, ?_, fun sim => rfl, fun sim h => h.symm⟩
  intro sim i t s h
  simp only [BuffonNeedleSimulation.add_round] at h
  rcases hins : dbInsert sim.db
      ⟨(sim.rounds.length : ℤ) + 1, i, t,
        sim.calculate_cumulative_pi i t⟩ with e | db2
  · rw [hins] at h
    exact absurd h (by simp)
  · rw [hins] at h
    simp only [Except.ok.injEq] at h
    rw [← h]

/-- Witness for C7: the implication components applied at a concrete
successful `add_round` on the empty ledger (the stored and reloaded
views agree) and at the empty ledger itself for the restart property. -/
theorem buffon_C7_witness :
    (BuffonNeedleSimulation.mk [⟨1, -1, 2, Est.inf⟩] [⟨1, -1, 2, Est.inf⟩]).rounds =
      load_rounds (BuffonNeedleSimulation.mk [⟨1, -1, 2, Est.inf⟩]
        [⟨1, -1, 2, Est.inf⟩]).db ∧
    (mkSim emptySim.db).rounds = emptySim.rounds :=
  ⟨buffon_C7_store_sync.2.1 emptySim (-1) 2
      (BuffonNeedleSimulation.mk [⟨1, -1, 2, Est.inf⟩] [⟨1, -1, 2, Est.inf⟩])
      (by decide),
   buffon_C7_store_sync.2.2.2 emptySim (by decide)⟩

/-- C8: `get_rounds_for_display` returns exactly the reversal of the
chronological in-memory `rounds` sequence; when that sequence is
canonically numbered (as in every reachable state) the displayed
sequence is in descending `round_number` order. -/
theorem buffon_C8_reverse (sim : BuffonNeedleSimulation) :
    sim.get_rounds_for_display = sim.rounds.reverse ∧
    (canonical sim.rounds →
      List.Sorted (fun a b => b.round_number ≤ a.round_number)
        sim.get_rounds_for_display) := by
  refine ⟨rfl, fun hc => ?_⟩
  show List.Pairwise _ sim.rounds.reverse
  rw [List.pairwise_reverse]
  exact canonical_sorted hc

/-- Witness for C8 on a concrete two-round ledger: the display is the
reversal and is sorted in descending round order. -/
theorem buffon_C8_witness :
    (BuffonNeedleSimulation.mk
        [⟨1, 2, 3, Est.inf⟩, ⟨2, 4, 5, Est.inf⟩]
        [⟨1, 2, 3, Est.inf⟩, ⟨2, 4, 5, Est.inf⟩]).get_rounds_for_display =
      (BuffonNeedleSimulation.mk
        [⟨1, 2, 3, Est.inf⟩, ⟨2, 4, 5, Est.inf⟩]
        [⟨1, 2, 3, Est.inf⟩, ⟨2, 4, 5, Est.inf⟩]).rounds.reverse ∧
    List.Sorted (fun a b => b.round_number ≤ a.round_number)
      (BuffonNeedleSimulation.mk
        [⟨1, 2, 3, Est.inf⟩, ⟨2, 4, 5, Est.inf⟩]
        [⟨1, 2, 3, Est.inf⟩, ⟨2, 4, 5, Est.inf⟩]).get_rounds_for_display :=
  ⟨(buffon_C8_reverse _).1, (buffon_C8_reverse _).2 (by decide)⟩

/-- A concrete ledger holding three rounds, used to exhibit the head/tail
overlap of `headAndTail` when `n < T < 2n`. -/
def c9Sim : BuffonNeedleSimulation :=
  ⟨[⟨1, 1, 1, Est.inf⟩, ⟨2, 1, 1, Est.inf⟩, ⟨3, 1, 1, Est.inf⟩],
   [⟨1, 1, 1, Est.inf⟩, ⟨2, 1, 1, Est.inf⟩, ⟨3, 1, 1, Est.inf⟩]⟩

/-- C9 counterexample: with `T = 3` total rounds and `n = 2`, the total
count exceeds `n`, yet round 2 appears in both the head and the tail of
`headAndTail 2` — the "no round appearing in both" part of the claim
fails for `n < T < 2n`. -/
theorem buffon_C9_counterexample :
    2 < c9Sim.rounds.length ∧
    RoundInfo.mk 2 1 1 Est.inf ∈ (c9Sim.headAndTail 2).1 ∧
    RoundInfo.mk 2 1 1 Est.inf ∈ (c9Sim.headAndTail 2).2 := by decide

/-- C9 (amended): for a ledger with `T` stored rounds (no duplicates),
`headAndTail n` returns the first `min T n` rounds as head; the tail is
empty when `T ≤ n` and is exactly the last `n` rounds when `T > n` (head
and tail then both have exactly `n` rounds); head and tail share no
round whenever `T ≥ 2n` — but for `n < T < 2n` the two windows overlap. -/
theorem buffon_C9_headTail (sim : BuffonNeedleSimulation) (n : ℕ)
    (hnd : sim.rounds.Nodup) :
    (sim.headAndTail n).1 = sim.rounds.take n ∧
    (sim.rounds.length ≤ n → (sim.headAndTail n).2 = []) ∧
    (n < sim.rounds.length →
      (sim.headAndTail n).2 = sim.rounds.drop (sim.rounds.length - n) ∧
      (sim.headAndTail n).1.length = n ∧
      (sim.headAndTail n).2.length = n) ∧
    (2 * n ≤ sim.rounds.length →
      (sim.headAndTail n).1.Disjoint (sim.headAndTail n).2) := by
  refine ⟨?_, ?_, ?_, ?_⟩
  · simp only [BuffonNeedleSimulation.headAndTail]
    split <;> rfl
  · intro h
    simp [BuffonNeedleSimulation.headAndTail, h]
  · intro h
    have hne : ¬ sim.rounds.length ≤ n := by omega
    refine ⟨by simp [BuffonNeedleSimulation.headAndTail, hne], ?_, ?_⟩
    · simp only [BuffonNeedleSimulation.headAndTail, if_neg hne]
      rw [List.length_take]
      omega
    · simp only [BuffonNeedleSimulation.headAndTail, if_neg hne]
      rw [List.length_drop]
      omega
  · intro h2n
    by_cases hle : sim.rounds.length ≤ n
    · simp [BuffonNeedleSimulation.headAndTail, hle]
    · simp only [BuffonNeedleSimulation.headAndTail, if_neg hle]
      exact List.disjoint_take_drop hnd (by omega)

/-- A concrete ledger holding four distinct rounds, for the C9 witness. -/
def c9SimW : BuffonNeedleSimulation :=
  ⟨[⟨1, 1, 1, Est.inf⟩, ⟨2, 1, 1, Est.inf⟩, ⟨3, 1, 1, Est.inf⟩, ⟨4, 1, 1, Est.inf⟩],
   [⟨1, 1, 1, Est.inf⟩, ⟨2, 1, 1, Est.inf⟩, ⟨3, 1, 1, Est.inf⟩, ⟨4, 1, 1, Est.inf⟩]⟩

/-- Witness for the amended C9 on a four-round ledger with `n = 2`
(`T = 2n`, so head and tail are disjoint). -/
theorem buffon_C9_witness :
    c9SimW.rounds.Nodup ∧
    ((c9SimW.headAndTail 2).1 = c9SimW.rounds.take 2 ∧
    (c9SimW.rounds.length ≤ 2 → (c9SimW.headAndTail 2).2 = []) ∧
    (2 < c9SimW.rounds.length →
      (c9SimW.headAndTail 2).2 = c9SimW.rounds.drop (c9SimW.rounds.length - 2) ∧
      (c9SimW.headAndTail 2).1.length = 2 ∧
      (c9SimW.headAndTail 2).2.length = 2) ∧
    (2 * 2 ≤ c9SimW.rounds.length →
      (c9SimW.headAndTail 2).1.Disjoint (c9SimW.headAndTail 2).2)) :=
  ⟨by decide, buffon_C9_headTail c9SimW 2 (by decide)⟩
